import Mathlib

/-!
Shallow embedding of the latinChat session-directory and room-routing core
(`chalicelib/storage.py`, `chalicelib/sender.py`, `chalicelib/handler.py`).

The DynamoDB table is modelled as a list of keys-only rows `(PK, SK)`; every
item the application writes is such a key pair.  `put_item` overwrites the item
with the same full key (for keys-only items this means: insert if absent) and
`delete_item` deletes by exact key.  Python strings are modelled as Lean
`String`; the string helpers (`split1`, `pySplit`, `pyLower`, ...) are written
by structural recursion on the character list so that every definition reduces
in the kernel.

Python dictionaries are modelled as association lists where a later insert for
an existing key replaces the stored value (`dictInsert`); lookup order is
irrelevant because each key occurs at most once in a dict built from `[]`.
DynamoDB returns query results sorted by sort key, while the model iterates in
table order; the difference is observable only when one partition holds two
rows with the same property prefix, a situation excluded by the hypotheses of
every theorem below (and unreachable for tables produced by the operations).

Uncaught Python exceptions are modelled by the `err` field of `HRes`; the
store mutations and websocket deliveries performed before the exception was
raised are kept, exactly as they persist in the real system.
-/

namespace LatinChat

/-- A directory-store row: `(partition key, sort key)` = `(connection id, SK)`. -/
abbrev Row := String × String

/-- The DynamoDB table: a list of keys-only rows. -/
abbrev Table := List Row

/-- Embeds `table.put_item(Item={'PK': pk, 'SK': sk})` for keys-only items:
overwrite-by-full-key, i.e. insert the row if it is not already present. -/
def put_item (t : Table) (pk sk : String) : Table :=
  if (pk, sk) ∈ t then t else t ++ [(pk, sk)]

/-- Embeds `table.delete_item(Key={'PK': pk, 'SK': sk})`: delete by exact key. -/
def delete_item (t : Table) (pk sk : String) : Table :=
  t.filter (fun r => ¬(r.1 = pk ∧ r.2 = sk))

/-- Embeds `table.query(KeyConditionExpression=Key('PK').eq(pk))`, projected to the
sort keys of the partition. -/
def query_pk (t : Table) (pk : String) : List String :=
  (t.filter (fun r => r.1 = pk)).map (fun r => r.2)

/-- Helper for Python `s.split('_', 1)`: break a character list at the first
`'_'`, returning the parts before and after it (or `none` if absent). -/
def break1 : List Char → Option (List Char × List Char)
  | [] => none
  | c :: cs =>
    if c = '_' then some ([], cs)
    else match break1 cs with
      | none => none
      | some (a, b) => some (c :: a, b)

/-- Python `s.split('_', 1)` as used on sort keys, `(s.split('_',1)[0],
s.split('_',1)[1])`.  On a string with no `'_'` Python would raise IndexError
at `[1]`; every sort key the application writes starts with `"username_"` or
`"room_"`, so that case is unreachable and the model returns `(s, "")`. -/
def split1 (s : String) : String × String :=
  match break1 s.data with
  | none => (s, "")
  | some (a, b) => (⟨a⟩, ⟨b⟩)

/-- Python `s.startswith(p)` where `p` is a single character. -/
def startsWithChar (s : String) (c : Char) : Bool :=
  match s.data with
  | [] => false
  | c0 :: _ => c0 = c

/-- Character-list core of `s.startswith(p)`. -/
def leadsWith : List Char → List Char → Bool
  | [], _ => true
  | _ :: _, [] => false
  | p :: ps, c :: cs => p = c && leadsWith ps cs

/-- Python `s.startswith(p)` for a string `p`. -/
def startsWithStr (s p : String) : Bool := leadsWith p.data s.data

/-- Split a character list on every occurrence of `sep` (Python
`s.split(sep)` behavior: adjacent separators yield empty fields, and the
result is never the empty list). -/
def splitAll (sep : Char) : List Char → List (List Char)
  | [] => [[]]
  | c :: cs =>
    if c = sep then [] :: splitAll sep cs
    else match splitAll sep cs with
      | [] => [[c]]
      | a :: rest => (c :: a) :: rest

/-- Python `s.split(' ')` (single-space separator, no collapsing). -/
def pySplit (s : String) (sep : Char) : List String :=
  (splitAll sep s.data).map (fun l => ⟨l⟩)

/-- ASCII lower-casing of one character (Python `str.lower` on the ASCII
command names used here). -/
def lowerChar (c : Char) : Char :=
  if 'A' ≤ c ∧ c ≤ 'Z' then Char.ofNat (c.toNat + 32) else c

/-- Python `s.lower()`. -/
def pyLower (s : String) : String := ⟨s.data.map lowerChar⟩

/-- Python `s[1:]` (drop the first character). -/
def pyTail (s : String) : String := ⟨s.data.tail⟩

/-- A Python dict from property name to property value. -/
abbrev Record := List (String × String)

/-- Python `d[k] = v`: replace the value of an existing key, else add it. -/
def dictInsert (d : Record) (k v : String) : Record :=
  d.filter (fun e => ¬ e.1 = k) ++ [(k, v)]

/-- Python `d.get(k)` / `d[k]` lookup (the latter raises KeyError on `none`,
which callers model explicitly). -/
def recGet (r : Record) (k : String) : Option String :=
  (r.find? (fun e => e.1 = k)).map (fun e => e.2)

/-- Embeds `Storage.create_connection`: write the stub row `(cid, "username_")`,
i.e. a connection with an unset username. -/
def create_connection (t : Table) (cid : String) : Table :=
  put_item t cid "username_"

/-- Embeds `Storage.set_username`: delete the row keyed by the old name and write the
row keyed by the new name. -/
def set_username (t : Table) (cid old_name username : String) : Table :=
  put_item (delete_item t cid ("username_" ++ old_name)) cid
    ("username_" ++ username)

/-- Embeds `Storage.set_room`: write the row `(cid, "room_" ++ room)`. -/
def set_room (t : Table) (cid room : String) : Table :=
  put_item t cid ("room_" ++ room)

/-- Embeds `Storage.remove_room`: delete the row `(cid, "room_" ++ room)`. -/
def remove_room (t : Table) (cid room : String) : Table :=
  delete_item t cid ("room_" ++ room)

/-- Embeds `Storage.get_connection_ids_by_room`: the ReverseLookup query — partition
keys of all rows whose sort key is exactly `"room_" ++ room`. -/
def get_connection_ids_by_room (t : Table) (room : String) : List String :=
  (t.filter (fun r => r.2 = "room_" ++ room)).map (fun r => r.1)

/-- Embeds `Storage.list_rooms`: scan the table and collect the distinct room names
(Python builds a `set`; the model determinizes it as a deduplicated list in
scan order). -/
def list_rooms (t : Table) : List String :=
  (((t.filter (fun r => startsWithStr r.2 "room_")).map
    (fun r => (split1 r.2).2))).dedup

/-- Embeds `Storage.delete_connection` (store untroubled by errors): query the
partition of `cid` and delete every row in it. -/
def delete_connection (t : Table) (cid : String) : Table :=
  (query_pk t cid).foldl (fun acc sk => delete_item acc cid sk) t

/-- One step of the dict comprehension in `get_record_by_connection`:
`d[sk.split('_',1)[0]] = sk.split('_',1)[1]`. -/
def recStep (d : Record) (sk : String) : Record :=
  dictInsert d (split1 sk).1 (split1 sk).2

/-- Embeds `Storage.get_record_by_connection`: query the partition of `cid` and build
the dict `{sk.split('_',1)[0]: sk.split('_',1)[1] for sk in rows}`. -/
def get_record_by_connection (t : Table) (cid : String) : Record :=
  (query_pk t cid).foldl recStep []

/-- One successful websocket delivery: `(recipient connection id, message)`. -/
abbrev Delivery := String × String

/-- Embeds `Sender.send`: push `msg` to `cid`; if the transport reports the peer gone
(`dead cid`), catch `WebsocketDisconnectedError` and self-heal the directory
with `delete_connection`, delivering nothing. -/
def send (dead : String → Bool) (t : Table) (cid msg : String) :
    Table × List Delivery :=
  if dead cid then (delete_connection t cid, []) else (t, [(cid, msg)])

/-- Embeds `Sender.broadcast`: `for cid in connection_ids: self.send(cid, message)`.
Each `send` runs independently; a self-heal for one handle does not stop the
loop. -/
def broadcast (dead : String → Bool) (t : Table) (cids : List String)
    (msg : String) : Table × List Delivery :=
  match cids with
  | [] => (t, [])
  | c :: rest =>
    let r := send dead t c msg
    let r2 := broadcast dead r.1 rest msg
    (r2.1, r.2 ++ r2.2)

/-- A transport in which every connection is reachable. -/
def noDead : String → Bool := fun _ => false

/-- The Python exceptions that can escape the handler paths modelled here. -/
inductive HErr where
  /-- Embeds `record['username']` on a dict without that key. -/
  | keyError : HErr
  /-- Embeds `args[0]` on an empty argument list. -/
  | indexError : HErr
  /-- calling the non-callable `Sender` object, `self._sender(...)`. -/
  | typeError : HErr
  /-- Embeds `list.remove(x)` with `x` not in the list. -/
  | valueError : HErr
deriving DecidableEq

/-- Result of one handler invocation: the table after all store mutations that
were reached, the deliveries made (in order), and the uncaught exception if
one escaped. -/
structure HRes where
  table : Table
  out : List Delivery
  err : Option HErr
deriving DecidableEq

/-- Python `list.remove(x)`: remove the first occurrence, or raise ValueError
(`none`) when `x` is absent. -/
def listRemove (l : List String) (x : String) : Option (List String) :=
  if x ∈ l then some (l.erase x) else none

/-- Usernames of a list of connections, `record['username']` for each loaded
record; `none` models the KeyError raised when a member has no username row. -/
def collectUsernames (t : Table) : List String → Option (List String)
  | [] => some []
  | c :: rest =>
    match recGet (get_record_by_connection t c) "username" with
    | none => none
    | some u => (collectUsernames t rest).map (fun l => u :: l)

/-- The static text of `Handler._help`, `'\n'.join([...])`. -/
def help_text : String :=
  String.intercalate "\n" [
    "Commands available:",
    "    /help",
    "          Display this message.",
    "    /join {chat_room_name}",
    "          Join a chatroom named {chat_room_name}.",
    "    /nick {nickname}",
    "          Change your name to {nickname}. If no {nickname}",
    "          is provided then your current name will be printed",
    "    /room",
    "          Print out the name of the room you are currently ",
    "          in.",
    "    /ls",
    "          If you are in a room, list all users also in the",
    "          room. Otherwise, list all rooms.",
    "    /quit",
    "          Leave current room.",
    "",
    "If you are in a room, raw text messages that do not start ",
    "with a / will be sent to everyone else in the room."]

/-- Embeds `Handler._help`: send the usage message back to the caller only. -/
def _help (dead : String → Bool) (t : Table) (cid : String)
    (_args : List String) (_record : Record) : HRes :=
  let r := send dead t cid help_text
  ⟨r.1, r.2, none⟩

/-- Embeds `Handler._nick`: with no argument, report the current nickname; with an
argument, rewrite the username row, confirm to the caller, and if the record
has a (truthy) room, remove the caller from the queried member list and
broadcast the rename to the rest. -/
def _nick (dead : String → Bool) (t : Table) (cid : String)
    (args : List String) (record : Record) : HRes :=
  match args with
  | [] =>
    match recGet record "username" with
    | none => ⟨t, [], some HErr.keyError⟩
    | some u =>
      let r := send dead t cid ("Current nickname: " ++ u)
      ⟨r.1, r.2, none⟩
  | nick :: _ =>
    match recGet record "username" with
    | none => ⟨t, [], some HErr.keyError⟩
    | some u =>
      let t1 := set_username t cid u nick
      let r1 := send dead t1 cid ("Nickname is: " ++ nick)
      match recGet record "room" with
      | none => ⟨r1.1, r1.2, none⟩
      | some room =>
        if room = "" then ⟨r1.1, r1.2, none⟩
        else
          let room_connections := get_connection_ids_by_room r1.1 room
          match listRemove room_connections cid with
          | none => ⟨r1.1, r1.2, some HErr.valueError⟩
          | some others =>
            let r2 := broadcast dead r1.1 others
              (u ++ " is now known as " ++ nick ++ ".")
            ⟨r2.1, r1.2 ++ r2.2, none⟩

/-- Embeds `Handler._room`: send the current room name, or the join hint. -/
def _room (dead : String → Bool) (t : Table) (cid : String)
    (_args : List String) (record : Record) : HRes :=
  match recGet record "room" with
  | some room =>
    let r := send dead t cid room
    ⟨r.1, r.2, none⟩
  | none =>
    let r := send dead t cid
      "Not currently in a room. Type /join {room_name} to do so."
    ⟨r.1, r.2, none⟩

/-- Embeds `Handler._quit`: no-op when the record has no room; otherwise delete the
membership row, confirm to the caller, and broadcast the departure to the
members found by a query made after the removal. -/
def _quit (dead : String → Bool) (t : Table) (cid : String)
    (_args : List String) (record : Record) : HRes :=
  match recGet record "room" with
  | none => ⟨t, [], none⟩
  | some room_name =>
    let t1 := remove_room t cid room_name
    let r1 := send dead t1 cid ("Left chat room \"" ++ room_name ++ "\"")
    match recGet record "username" with
    | none => ⟨r1.1, r1.2, some HErr.keyError⟩
    | some u =>
      let r2 := broadcast dead r1.1
        (get_connection_ids_by_room r1.1 room_name) (u ++ " left room.")
      ⟨r2.1, r1.2 ++ r2.2, none⟩

/-- Embeds `Handler._join`: `args[0]` (IndexError on an empty argument list), then
the quit behavior, then query the target room's members, set the room row,
confirm to the caller, and broadcast the arrival to the pre-join members.
Python passes the string `''` as `_quit`'s unused argument list. -/
def _join (dead : String → Bool) (t : Table) (cid : String)
    (args : List String) (record : Record) : HRes :=
  match args with
  | [] => ⟨t, [], some HErr.indexError⟩
  | room :: _ =>
    let q := _quit dead t cid [] record
    match q.err with
    | some e => ⟨q.table, q.out, some e⟩
    | none =>
      let room_connections := get_connection_ids_by_room q.table room
      let t1 := set_room q.table cid room
      let r1 := send dead t1 cid ("Joined chat room \"" ++ room ++ "\"")
      match recGet record "username" with
      | none => ⟨r1.1, q.out ++ r1.2, some HErr.keyError⟩
      | some u =>
        let r2 := broadcast dead r1.1 room_connections (u ++ " joined room.")
        ⟨r2.1, q.out ++ r1.2 ++ r2.2, none⟩

/-- Embeds `Handler._list`: in a (truthy) room, send the newline-joined usernames of
its members; otherwise send the newline-joined room listing. -/
def _list (dead : String → Bool) (t : Table) (cid : String)
    (_args : List String) (record : Record) : HRes :=
  match recGet record "room" with
  | some room =>
    if room = "" then
      let r := send dead t cid (String.intercalate "\n" (list_rooms t))
      ⟨r.1, r.2, none⟩
    else
      match collectUsernames t (get_connection_ids_by_room t room) with
      | none => ⟨t, [], some HErr.keyError⟩
      | some names =>
        let r := send dead t cid (String.intercalate "\n" names)
        ⟨r.1, r.2, none⟩
  | none =>
    let r := send dead t cid (String.intercalate "\n" (list_rooms t))
    ⟨r.1, r.2, none⟩

/-- Embeds `Handler._handle_text`: error reply when the record has no room; otherwise
prefix with `username + ": "` and broadcast to every member of the room
(sender included). -/
def _handle_text (dead : String → Bool) (t : Table) (cid : String)
    (message : String) (record : Record) : HRes :=
  match recGet record "room" with
  | none =>
    let r := send dead t cid "Cannot send message if not in chatroom."
    ⟨r.1, r.2, none⟩
  | some room =>
    let connection_ids := get_connection_ids_by_room t room
    match recGet record "username" with
    | none => ⟨t, [], some HErr.keyError⟩
    | some u =>
      let r := broadcast dead t connection_ids (u ++ ": " ++ message)
      ⟨r.1, r.2, none⟩

/-- Embeds `Handler._handle_command`: split on single spaces, pop the command name,
lower-case it, and dispatch through the static command table.  On a miss the
source executes `self._sender(connection_id, 'Unknown command: %s' % name)`,
calling the non-callable `Sender` object: a TypeError escapes and nothing is
sent. -/
def _handle_command (dead : String → Bool) (t : Table) (cid : String)
    (message : String) (record : Record) : HRes :=
  match pySplit message ' ' with
  | [] => ⟨t, [], some HErr.indexError⟩
  | name :: args =>
    let command_name := pyLower name
    if command_name = "help" then _help dead t cid args record
    else if command_name = "nick" then _nick dead t cid args record
    else if command_name = "join" then _join dead t cid args record
    else if command_name = "room" then _room dead t cid args record
    else if command_name = "quit" then _quit dead t cid args record
    else if command_name = "ls" then _list dead t cid args record
    else ⟨t, [], some HErr.typeError⟩

/-- Embeds `Handler._handle_login_message`: rewrite the username row from `''` to the
message text and confirm the nickname choice. -/
def _handle_login_message (dead : String → Bool) (t : Table) (cid : String)
    (message : String) : HRes :=
  let t1 := set_username t cid "" message
  let r := send dead t1 cid
    ("Using nickname: " ++ message ++ "\nType /help for list of commands.")
  ⟨r.1, r.2, none⟩

/-- Embeds `Handler._handle_message`: slash prefix dispatches to the command table,
anything else is room text. -/
def _handle_message (dead : String → Bool) (t : Table) (cid : String)
    (message : String) (record : Record) : HRes :=
  if startsWithChar message '/' then
    _handle_command dead t cid (pyTail message) record
  else
    _handle_text dead t cid message record

/-- Embeds `Handler.handle`: load the record and branch on `record['username']`
(KeyError when the dict has no such key). -/
def handle (dead : String → Bool) (t : Table) (cid message : String) : HRes :=
  let record := get_record_by_connection t cid
  match recGet record "username" with
  | none => ⟨t, [], some HErr.keyError⟩
  | some u =>
    if u = "" then _handle_login_message dead t cid message
    else _handle_message dead t cid message record

/-- A transient failure from the DynamoDB client (`boto3` raising on a call). -/
inductive StoreError where
  | transient : StoreError
deriving DecidableEq

/-- Fault-injection switches for the store primitives: a set flag makes every
call of the corresponding primitive (`put_item`, `delete_item`, `query`,
`scan`) raise a transient `StoreError`. -/
structure Flags where
  putFail : Bool
  deleteFail : Bool
  queryFail : Bool
  scanFail : Bool
deriving DecidableEq

/-- Embeds `table.put_item` under fault injection. -/
def put_itemF (f : Flags) (t : Table) (pk sk : String) :
    Except StoreError Table :=
  if f.putFail then .error .transient else .ok (put_item t pk sk)

/-- Embeds `table.delete_item` under fault injection. -/
def delete_itemF (f : Flags) (t : Table) (pk sk : String) :
    Except StoreError Table :=
  if f.deleteFail then .error .transient else .ok (delete_item t pk sk)

/-- Embeds `table.query` by partition key under fault injection. -/
def query_pkF (f : Flags) (t : Table) (pk : String) :
    Except StoreError (List String) :=
  if f.queryFail then .error .transient else .ok (query_pk t pk)

/-- The ReverseLookup `table.query` under fault injection. -/
def query_roomF (f : Flags) (t : Table) (room : String) :
    Except StoreError (List String) :=
  if f.queryFail then .error .transient else .ok (get_connection_ids_by_room t room)

/-- Embeds `table.scan` under fault injection. -/
def scanF (f : Flags) (t : Table) : Except StoreError Table :=
  if f.scanFail then .error .transient else .ok t

/-- Embeds `Storage.create_connection` over the fallible primitives: no
`try`/`except`, so a primitive error propagates. -/
def create_connectionF (f : Flags) (t : Table) (cid : String) :
    Except StoreError Table :=
  put_itemF f t cid "username_"

/-- Embeds `Storage.set_username` over the fallible primitives: errors propagate. -/
def set_usernameF (f : Flags) (t : Table) (cid old_name username : String) :
    Except StoreError Table := do
  let t1 ← delete_itemF f t cid ("username_" ++ old_name)
  put_itemF f t1 cid ("username_" ++ username)

/-- Embeds `Storage.set_room` over the fallible primitives: errors propagate. -/
def set_roomF (f : Flags) (t : Table) (cid room : String) :
    Except StoreError Table :=
  put_itemF f t cid ("room_" ++ room)

/-- Embeds `Storage.remove_room` over the fallible primitives: errors propagate. -/
def remove_roomF (f : Flags) (t : Table) (cid room : String) :
    Except StoreError Table :=
  delete_itemF f t cid ("room_" ++ room)

/-- Embeds `Storage.get_connection_ids_by_room` over the fallible primitives:
errors propagate. -/
def get_connection_ids_by_roomF (f : Flags) (t : Table) (room : String) :
    Except StoreError (List String) :=
  query_roomF f t room

/-- Embeds `Storage.get_record_by_connection` over the fallible primitives:
errors propagate. -/
def get_record_by_connectionF (f : Flags) (t : Table) (cid : String) :
    Except StoreError Record := do
  let sks ← query_pkF f t cid
  pure (sks.foldl recStep [])

/-- Embeds `Storage.list_rooms` over the fallible primitives: errors propagate. -/
def list_roomsF (f : Flags) (t : Table) : Except StoreError (List String) := do
  let items ← scanF f t
  pure (((items.filter (fun r => startsWithStr r.2 "room_")).map
    (fun r => (split1 r.2).2)).dedup)

/-- The deletion loop of `Storage.delete_connection`; the enclosing
`try`/`except` means a failing `delete_item` aborts the loop with the state
reached so far instead of raising. -/
def deleteLoopF (f : Flags) (cid : String) : Table → List String → Table
  | t, [] => t
  | t, sk :: rest =>
    match delete_itemF f t cid sk with
    | .error _ => t
    | .ok t1 => deleteLoopF f cid t1 rest

/-- Embeds `Storage.delete_connection` over the fallible primitives: the whole body
is wrapped in `try ... except Exception as e: print(e)`, so any store error
is logged and swallowed and the call always returns normally. -/
def delete_connectionF (f : Flags) (t : Table) (cid : String) : Table :=
  match query_pkF f t cid with
  | .error _ => t
  | .ok items => deleteLoopF f cid t items

/-- Whether a fallible store call returned without raising. -/
def okB {α : Type} : Except StoreError α → Bool
  | .ok _ => true
  | .error _ => false

/-- The sort keys of `cid`'s room-membership rows: the derived membership
state the invariants below are about. -/
def roomKeyed (t : Table) (cid : String) : List String :=
  (query_pk t cid).filter (fun sk => (split1 sk).1 = "room")

/-- At most one room membership per connection. -/
def oneRoomInv (t : Table) (cid : String) : Prop :=
  (roomKeyed t cid).length ≤ 1

/-- Well-formedness of `cid`'s room rows: each one is literally
`"room_" ++ name`, the only shape `set_room` ever writes. -/
def roomWF (t : Table) (cid : String) : Prop :=
  ∀ sk ∈ roomKeyed t cid, sk = "room_" ++ (split1 sk).2

/-! ### Basic table lemmas -/

theorem mem_put_item {t : Table} {pk sk : String} {r : Row} :
    r ∈ put_item t pk sk ↔ r ∈ t ∨ r = (pk, sk) := by
  unfold put_item
  by_cases h : (pk, sk) ∈ t
  · simp only [if_pos h]
    exact ⟨Or.inl, fun hr => hr.elim id (fun e => e ▸ h)⟩
  · simp [if_neg h]

theorem mem_delete_item {t : Table} {pk sk : String} {r : Row} :
    r ∈ delete_item t pk sk ↔ r ∈ t ∧ ¬(r.1 = pk ∧ r.2 = sk) := by
  simp [delete_item]
  tauto

theorem mem_query_pk {t : Table} {pk sk : String} :
    sk ∈ query_pk t pk ↔ (pk, sk) ∈ t := by
  simp only [query_pk, List.mem_map, List.mem_filter, decide_eq_true_eq]
  constructor
  · rintro ⟨r, ⟨hr, h1⟩, h2⟩
    have : r = (pk, sk) := by
      cases r; cases h1; cases h2; rfl
    exact this ▸ hr
  · intro h
    exact ⟨(pk, sk), ⟨h, rfl⟩, rfl⟩

theorem mem_get_connection_ids {t : Table} {room c : String} :
    c ∈ get_connection_ids_by_room t room ↔ (c, "room_" ++ room) ∈ t := by
  simp only [get_connection_ids_by_room, List.mem_map, List.mem_filter,
    decide_eq_true_eq]
  constructor
  · rintro ⟨r, ⟨hr, h2⟩, h1⟩
    have : r = (c, "room_" ++ room) := by
      cases r; cases h1; cases h2; rfl
    exact this ▸ hr
  · intro h
    exact ⟨(c, "room_" ++ room), ⟨h, rfl⟩, rfl⟩

theorem mem_foldl_delete {cid : String} (L : List String) (t : Table) (r : Row) :
    r ∈ L.foldl (fun acc sk => delete_item acc cid sk) t ↔
      r ∈ t ∧ ¬(r.1 = cid ∧ r.2 ∈ L) := by
  induction L generalizing t with
  | nil => simp
  | cons sk L ih =>
    simp only [List.foldl_cons, ih, mem_delete_item, List.mem_cons]
    tauto

theorem mem_delete_connection {t : Table} {cid : String} {r : Row} :
    r ∈ delete_connection t cid ↔ r ∈ t ∧ r.1 ≠ cid := by
  unfold delete_connection
  rw [mem_foldl_delete]
  constructor
  · rintro ⟨hr, h⟩
    refine ⟨hr, fun heq => h ⟨heq, ?_⟩⟩
    rw [mem_query_pk, ← heq]
    exact hr
  · rintro ⟨hr, h⟩
    exact ⟨hr, fun hc => h hc.1⟩

theorem query_pk_delete_connection (t : Table) (cid : String) :
    query_pk (delete_connection t cid) cid = [] := by
  rw [List.eq_nil_iff_forall_not_mem]
  intro sk h
  rw [mem_query_pk, mem_delete_connection] at h
  exact h.2 rfl

theorem query_pk_append (t1 t2 : Table) (pk : String) :
    query_pk (t1 ++ t2) pk = query_pk t1 pk ++ query_pk t2 pk := by
  simp [query_pk]

theorem query_pk_delete_item (t : Table) (cid sk0 : String) :
    query_pk (delete_item t cid sk0) cid =
      (query_pk t cid).filter (fun sk => ¬ sk = sk0) := by
  induction t with
  | nil => rfl
  | cons r t ih =>
    rcases r with ⟨p, s⟩
    by_cases h1 : p = cid
    · subst h1
      by_cases h2 : s = sk0
      · subst h2
        simpa [delete_item, query_pk] using ih
      · simpa [delete_item, query_pk, h2] using ih
    · simpa [delete_item, query_pk, h1] using ih

theorem query_pk_put_item {t : Table} {cid sk : String}
    (h : (cid, sk) ∉ t) :
    query_pk (put_item t cid sk) cid = query_pk t cid ++ [sk] := by
  unfold put_item
  rw [if_neg h, query_pk_append]
  simp [query_pk]

/-! ### Sort-key splitting -/

theorem split1_room (X : String) : split1 ("room_" ++ X) = ("room", X) := by
  have h : ("room_" ++ X).data = 'r' :: 'o' :: 'o' :: 'm' :: '_' :: X.data := by
    simp [String.data_append]
  simp [split1, h, break1]

theorem split1_username (X : String) :
    split1 ("username_" ++ X) = ("username", X) := by
  have h : ("username_" ++ X).data =
      'u' :: 's' :: 'e' :: 'r' :: 'n' :: 'a' :: 'm' :: 'e' :: '_' :: X.data := by
    simp [String.data_append]
  simp [split1, h, break1]

/-! ### Record (dict) lemmas -/

theorem recGet_cons (e : String × String) (d : Record) (kq : String) :
    recGet (e :: d) kq = if e.1 = kq then some e.2 else recGet d kq := by
  by_cases h : e.1 = kq <;> simp [recGet, List.find?_cons, h]

theorem dictInsert_cons (e : String × String) (d : Record) (k v : String) :
    dictInsert (e :: d) k v =
      if e.1 = k then dictInsert d k v else e :: dictInsert d k v := by
  by_cases h : e.1 = k <;> simp [dictInsert, List.filter_cons, h]

theorem recGet_dictInsert (d : Record) (k v kq : String) :
    recGet (dictInsert d k v) kq = if kq = k then some v else recGet d kq := by
  induction d with
  | nil =>
    show recGet [(k, v)] kq = _
    rw [recGet_cons]
    by_cases h : kq = k
    · rw [if_pos (h ▸ rfl), if_pos h]
    · rw [if_neg (fun he => h he.symm), if_neg h]
  | cons e d ih =>
    rw [dictInsert_cons]
    by_cases hek : e.1 = k
    · rw [if_pos hek, ih]
      by_cases hq : kq = k
      · rw [if_pos hq, if_pos hq]
      · rw [if_neg hq, if_neg hq, recGet_cons, if_neg]
        intro he
        exact hq (he ▸ hek)
    · rw [if_neg hek, recGet_cons]
      by_cases he : e.1 = kq
      · rw [if_pos he]
        have hq : ¬ kq = k := fun hq => hek (he.trans hq)
        rw [if_neg hq, recGet_cons, if_pos he]
      · rw [if_neg he, ih]
        by_cases hq : kq = k
        · rw [if_pos hq, if_pos hq]
        · rw [if_neg hq, if_neg hq, recGet_cons, if_neg he]

theorem recGet_recStep (d : Record) (sk kq : String) :
    recGet (recStep d sk) kq =
      if kq = (split1 sk).1 then some (split1 sk).2 else recGet d kq := by
  unfold recStep
  exact recGet_dictInsert d (split1 sk).1 (split1 sk).2 kq

theorem recGet_foldl_congr {k : String} (L : List String) {d1 d2 : Record}
    (h : recGet d1 k = recGet d2 k) :
    recGet (L.foldl recStep d1) k = recGet (L.foldl recStep d2) k := by
  induction L generalizing d1 d2 with
  | nil => exact h
  | cons sk L ih =>
    simp only [List.foldl_cons]
    refine ih ?_
    rw [recGet_recStep, recGet_recStep, h]

theorem recGet_foldl_of_keys_ne {k : String} {L : List String} (d : Record)
    (h : ∀ sk ∈ L, (split1 sk).1 ≠ k) :
    recGet (L.foldl recStep d) k = recGet d k := by
  induction L generalizing d with
  | nil => rfl
  | cons sk L ih =>
    simp only [List.foldl_cons]
    rw [ih _ (fun s hs => h s (List.mem_cons_of_mem _ hs)),
      recGet_recStep, if_neg]
    exact fun he => h sk (List.mem_cons_self _ _) (he ▸ rfl)

theorem recGet_foldl_none {k : String} {L : List String} {d : Record}
    (h : recGet (L.foldl recStep d) k = none) :
    recGet d k = none ∧ ∀ sk ∈ L, (split1 sk).1 ≠ k := by
  induction L generalizing d with
  | nil => exact ⟨h, by simp⟩
  | cons sk L ih =>
    simp only [List.foldl_cons] at h
    obtain ⟨h1, h2⟩ := ih h
    rw [recGet_recStep] at h1
    by_cases hk : k = (split1 sk).1
    · rw [if_pos hk] at h1; cases h1
    · rw [if_neg hk] at h1
      refine ⟨h1, ?_⟩
      intro s hs
      rcases List.mem_cons.mp hs with rfl | hs
      · exact fun he => hk (he ▸ rfl)
      · exact h2 s hs

theorem recGet_foldl_filter_single {k sk0 : String} {L : List String}
    (d : Record) (h : L.filter (fun sk => (split1 sk).1 = k) = [sk0]) :
    recGet (L.foldl recStep d) k = some (split1 sk0).2 := by
  induction L generalizing d with
  | nil => cases h
  | cons sk L ih =>
    by_cases hk : (split1 sk).1 = k
    · rw [List.filter_cons_of_pos (by simpa using hk)] at h
      have hsk : sk = sk0 := by
        have := congrArg (fun l => l.headD "") h
        simpa using this
      have hrest : L.filter (fun sk => (split1 sk).1 = k) = [] := by
        have := congrArg List.tail h
        simpa using this
      subst hsk
      simp only [List.foldl_cons]
      rw [recGet_foldl_of_keys_ne _ (fun s hs => by
        intro he
        have : s ∈ L.filter (fun sk => (split1 sk).1 = k) := by
          rw [List.mem_filter]
          exact ⟨hs, by simpa using he⟩
        rw [hrest] at this
        cases this)]
      rw [recGet_recStep, if_pos hk.symm]
    · rw [List.filter_cons_of_neg (by simpa using hk)] at h
      simp only [List.foldl_cons]
      exact ih _ h

theorem recGet_foldl_filter_sub {k : String} {p : String → Bool}
    {L : List String} (d : Record)
    (h : ∀ sk ∈ L, ¬ p sk → (split1 sk).1 ≠ k) :
    recGet ((L.filter p).foldl recStep d) k = recGet (L.foldl recStep d) k := by
  induction L generalizing d with
  | nil => rfl
  | cons sk L ih =>
    by_cases hp : p sk
    · rw [List.filter_cons_of_pos hp]
      simp only [List.foldl_cons]
      exact ih _ (fun s hs => h s (List.mem_cons_of_mem _ hs))
    · rw [List.filter_cons_of_neg (by simpa using hp)]
      simp only [List.foldl_cons]
      rw [ih _ (fun s hs => h s (List.mem_cons_of_mem _ hs))]
      refine recGet_foldl_congr L ?_
      rw [recGet_recStep, if_neg]
      exact fun he =>
        h sk (List.mem_cons_self _ _) (by simpa using hp) (he ▸ rfl)

theorem recGet_record_none {t : Table} {cid k : String}
    (h : ∀ sk ∈ query_pk t cid, (split1 sk).1 ≠ k) :
    recGet (get_record_by_connection t cid) k = none := by
  unfold get_record_by_connection
  rw [recGet_foldl_of_keys_ne _ h]
  rfl

theorem recGet_record_none_inv {t : Table} {cid k : String}
    (h : recGet (get_record_by_connection t cid) k = none) :
    ∀ sk ∈ query_pk t cid, (split1 sk).1 ≠ k := by
  unfold get_record_by_connection at h
  exact (recGet_foldl_none h).2

theorem recGet_record_single {t : Table} {cid k sk0 : String}
    (h : (query_pk t cid).filter (fun sk => (split1 sk).1 = k) = [sk0]) :
    recGet (get_record_by_connection t cid) k = some (split1 sk0).2 := by
  unfold get_record_by_connection
  exact recGet_foldl_filter_single _ h

/-! ### Sender lemmas -/

theorem send_noDead (t : Table) (c m : String) :
    send noDead t c m = (t, [(c, m)]) := rfl

theorem broadcast_noDead (t : Table) (l : List String) (m : String) :
    broadcast noDead t l m = (t, l.map (fun c => (c, m))) := by
  induction l generalizing t with
  | nil => rfl
  | cons c l ih => simp [broadcast, send_noDead, ih]

theorem broadcast_all_live {dead : String → Bool} (t : Table)
    {l : List String} (m : String) (h : ∀ c ∈ l, dead c = false) :
    broadcast dead t l m = (t, l.map (fun c => (c, m))) := by
  induction l generalizing t with
  | nil => rfl
  | cons c l ih =>
    have hc : dead c = false := h c (List.mem_cons_self _ _)
    have ih' := ih t (fun x hx => h x (List.mem_cons_of_mem _ hx))
    simp [broadcast, send, hc, ih']

/-! ### Quit and join structure lemmas -/

theorem quit_noDead_none {record : Record} (t : Table) (cid : String)
    (args : List String) (h : recGet record "room" = none) :
    _quit noDead t cid args record = ⟨t, [], none⟩ := by
  unfold _quit
  rw [h]

theorem quit_noDead_some {record : Record} {X u : String} (t : Table)
    (cid : String) (args : List String)
    (hr : recGet record "room" = some X)
    (hu : recGet record "username" = some u) :
    _quit noDead t cid args record =
      ⟨remove_room t cid X,
       (cid, "Left chat room \"" ++ X ++ "\"") ::
         (get_connection_ids_by_room (remove_room t cid X) X).map
           (fun c => (c, u ++ " left room.")),
       none⟩ := by
  unfold _quit
  rw [hr, hu]
  simp [send_noDead, broadcast_noDead]

theorem quit_noDead_table {record : Record} {X : String} (t : Table)
    (cid : String) (args : List String)
    (hr : recGet record "room" = some X) :
    (_quit noDead t cid args record).table = remove_room t cid X := by
  unfold _quit
  rw [hr]
  cases hu : recGet record "username" with
  | none => simp [send_noDead]
  | some u => simp [send_noDead, broadcast_noDead]

/-! ### Room-membership bookkeeping -/

theorem roomKeyed_delete_item (t : Table) (cid sk0 : String) :
    roomKeyed (delete_item t cid sk0) cid =
      (roomKeyed t cid).filter (fun sk => ¬ sk = sk0) := by
  unfold roomKeyed
  rw [query_pk_delete_item, List.filter_comm]

theorem roomKeyed_put_item_room {t : Table} {cid A : String}
    (h : (cid, "room_" ++ A) ∉ t) :
    roomKeyed (put_item t cid ("room_" ++ A)) cid =
      roomKeyed t cid ++ ["room_" ++ A] := by
  unfold roomKeyed
  rw [query_pk_put_item h, List.filter_append,
    List.filter_cons_of_pos (by simp [split1_room])]
  rfl

theorem mem_roomKeyed {t : Table} {cid sk : String} :
    sk ∈ roomKeyed t cid ↔ (cid, sk) ∈ t ∧ (split1 sk).1 = "room" := by
  unfold roomKeyed
  rw [List.mem_filter, mem_query_pk]
  simp

theorem notin_of_roomKeyed_nil {t : Table} {cid A : String}
    (h : roomKeyed t cid = []) : (cid, "room_" ++ A) ∉ t := by
  intro hmem
  have hm : "room_" ++ A ∈ roomKeyed t cid :=
    mem_roomKeyed.mpr ⟨hmem, by rw [split1_room]⟩
  rw [h] at hm
  cases hm

theorem record_room_of_roomKeyed_nil {t : Table} {cid : String}
    (h : roomKeyed t cid = []) :
    recGet (get_record_by_connection t cid) "room" = none := by
  refine recGet_record_none ?_
  intro sk hsk hkey
  have hm : sk ∈ roomKeyed t cid := by
    unfold roomKeyed
    rw [List.mem_filter]
    exact ⟨hsk, by simpa using hkey⟩
  rw [h] at hm
  cases hm

theorem record_room_of_roomKeyed_single {t : Table} {cid sk0 : String}
    (h : roomKeyed t cid = [sk0]) :
    recGet (get_record_by_connection t cid) "room" = some (split1 sk0).2 :=
  recGet_record_single h

theorem quit_err_none {record : Record} {u : String} (t : Table) (cid : String)
    (args : List String) (hu : recGet record "username" = some u) :
    (_quit noDead t cid args record).err = none := by
  unfold _quit
  cases hr : recGet record "room" with
  | none => rfl
  | some X => simp [hu, send_noDead, broadcast_noDead]

theorem oneRoomInv_cases {t : Table} {cid : String} (h : oneRoomInv t cid) :
    roomKeyed t cid = [] ∨ ∃ sk0, roomKeyed t cid = [sk0] := by
  unfold oneRoomInv at h
  cases hl : roomKeyed t cid with
  | nil => exact Or.inl rfl
  | cons a l =>
    cases l with
    | nil => exact Or.inr ⟨a, rfl⟩
    | cons b l => rw [hl] at h; simp at h

theorem quit_roomKeyed_nil {t : Table} {cid : String} (args : List String)
    (h1 : oneRoomInv t cid) (hwf : roomWF t cid) :
    roomKeyed
      (_quit noDead t cid args (get_record_by_connection t cid)).table cid
      = [] := by
  rcases oneRoomInv_cases h1 with hnil | ⟨sk0, hone⟩
  · rw [quit_noDead_none t cid args (record_room_of_roomKeyed_nil hnil)]
    exact hnil
  · have hsk0 : sk0 = "room_" ++ (split1 sk0).2 :=
      hwf sk0 (hone ▸ List.mem_singleton_self sk0)
    rw [quit_noDead_table t cid args (record_room_of_roomKeyed_single hone)]
    unfold remove_room
    rw [← hsk0, roomKeyed_delete_item, hone]
    simp

theorem quit_excludes {t : Table} {cid A : String} (args : List String)
    (h1 : oneRoomInv t cid) (hwf : roomWF t cid) :
    cid ∉ get_connection_ids_by_room
      (_quit noDead t cid args (get_record_by_connection t cid)).table A := by
  intro hmem
  rw [mem_get_connection_ids] at hmem
  have hm : "room_" ++ A ∈ roomKeyed
      (_quit noDead t cid args (get_record_by_connection t cid)).table cid :=
    mem_roomKeyed.mpr ⟨hmem, by rw [split1_room]⟩
  rw [quit_roomKeyed_nil args h1 hwf] at hm
  cases hm

theorem remove_room_excludes (t : Table) (cid X : String) :
    cid ∉ get_connection_ids_by_room (remove_room t cid X) X := by
  intro h
  rw [mem_get_connection_ids] at h
  unfold remove_room at h
  rw [mem_delete_item] at h
  exact h.2 ⟨rfl, rfl⟩

theorem join_noDead_eq {record : Record} {u : String} (t : Table)
    (cid room : String) (rest : List String)
    (hu : recGet record "username" = some u) :
    _join noDead t cid (room :: rest) record =
      ⟨set_room (_quit noDead t cid [] record).table cid room,
       (_quit noDead t cid [] record).out ++
         (cid, "Joined chat room \"" ++ room ++ "\"") ::
           (get_connection_ids_by_room
             (_quit noDead t cid [] record).table room).map
             (fun c => (c, u ++ " joined room.")),
       none⟩ := by
  have herr := quit_err_none t cid [] hu
  unfold _join
  simp only [herr, hu, send_noDead, broadcast_noDead]
  simp

theorem record_username_put_room {t : Table} {cid u A : String}
    (h : (cid, "room_" ++ A) ∉ t)
    (hu : recGet (get_record_by_connection t cid) "username" = some u) :
    recGet (get_record_by_connection (put_item t cid ("room_" ++ A)) cid)
      "username" = some u := by
  unfold get_record_by_connection at hu ⊢
  rw [query_pk_put_item h, List.foldl_append, List.foldl_cons, List.foldl_nil,
    recGet_recStep, split1_room, if_neg (by simp)]
  exact hu

theorem record_username_delete_room {t : Table} {cid u sk0 : String}
    (hroom : (split1 sk0).1 = "room")
    (hu : recGet (get_record_by_connection t cid) "username" = some u) :
    recGet (get_record_by_connection (delete_item t cid sk0) cid)
      "username" = some u := by
  unfold get_record_by_connection at hu ⊢
  rw [query_pk_delete_item, recGet_foldl_filter_sub]
  · exact hu
  · intro s _ hps hkey
    have hs : s = sk0 := by simpa using hps
    rw [hs, hroom] at hkey
    exact absurd hkey (by decide)

theorem quit_username {t : Table} {cid u : String} (args : List String)
    (hu : recGet (get_record_by_connection t cid) "username" = some u) :
    recGet (get_record_by_connection
      (_quit noDead t cid args (get_record_by_connection t cid)).table cid)
      "username" = some u := by
  cases hr : recGet (get_record_by_connection t cid) "room" with
  | none => rw [quit_noDead_none t cid args hr]; exact hu
  | some X =>
    rw [quit_noDead_table t cid args hr]
    unfold remove_room
    exact record_username_delete_room (by rw [split1_room]) hu

theorem join_roomKeyed {t : Table} {cid u : String} (A : String)
    (rest : List String)
    (hu : recGet (get_record_by_connection t cid) "username" = some u)
    (h1 : oneRoomInv t cid) (hwf : roomWF t cid) :
    roomKeyed ((_join noDead t cid (A :: rest)
      (get_record_by_connection t cid)).table) cid = ["room_" ++ A] := by
  rw [join_noDead_eq t cid A rest hu]
  have hq := quit_roomKeyed_nil [] h1 hwf
  show roomKeyed (set_room _ cid A) cid = _
  unfold set_room
  rw [roomKeyed_put_item_room (notin_of_roomKeyed_nil hq), hq]
  rfl

theorem join_username {t : Table} {cid u : String} (A : String)
    (rest : List String)
    (hu : recGet (get_record_by_connection t cid) "username" = some u)
    (h1 : oneRoomInv t cid) (hwf : roomWF t cid) :
    recGet (get_record_by_connection ((_join noDead t cid (A :: rest)
      (get_record_by_connection t cid)).table) cid) "username" = some u := by
  rw [join_noDead_eq t cid A rest hu]
  have hq := quit_roomKeyed_nil [] h1 hwf
  show recGet (get_record_by_connection (set_room _ cid A) cid) "username" = _
  unfold set_room
  exact record_username_put_room (notin_of_roomKeyed_nil hq)
    (quit_username [] hu)

theorem quit_oneRoomInv {t : Table} {cid : String} (args : List String)
    (h1 : oneRoomInv t cid) :
    oneRoomInv
      (_quit noDead t cid args (get_record_by_connection t cid)).table cid := by
  cases hr : recGet (get_record_by_connection t cid) "room" with
  | none => rw [quit_noDead_none t cid args hr]; exact h1
  | some X =>
    rw [quit_noDead_table t cid args hr]
    unfold oneRoomInv remove_room
    rw [roomKeyed_delete_item]
    exact le_trans (List.length_filter_le _ _) h1

/-! ### One dead recipient during a broadcast -/

theorem filter_ne_of_not_mem {l : List String} {d : String} (h : d ∉ l) :
    l.filter (fun c => ¬ c = d) = l := by
  rw [List.filter_eq_self]
  intro a ha
  simp only [decide_not, Bool.not_eq_true', decide_eq_false_iff_not]
  exact fun he => h (he ▸ ha)

theorem length_filter_ne {l : List String} {d : String} (hnd : l.Nodup)
    (hd : d ∈ l) : (l.filter (fun c => ¬ c = d)).length = l.length - 1 := by
  induction l with
  | nil => cases hd
  | cons c l ih =>
    rw [List.nodup_cons] at hnd
    rcases List.mem_cons.mp hd with rfl | hd'
    · rw [List.filter_cons_of_neg (by simp), filter_ne_of_not_mem hnd.1]
      simp
    · have hcd : ¬ c = d := fun he => hnd.1 (he ▸ hd')
      rw [List.filter_cons_of_pos (by simpa using hcd), List.length_cons,
        List.length_cons, ih hnd.2 hd']
      have hpos : 0 < l.length := List.length_pos.mpr (List.ne_nil_of_mem hd')
      omega

theorem broadcast_one_dead {dead : String → Bool} {cids : List String}
    {d : String} (t : Table) (msg : String)
    (hmem : d ∈ cids) (hnd : cids.Nodup) (hdead : dead d = true)
    (hlive : ∀ c ∈ cids, c ≠ d → dead c = false) :
    broadcast dead t cids msg =
      (delete_connection t d,
       (cids.filter (fun c => ¬ c = d)).map (fun c => (c, msg))) := by
  induction cids generalizing t with
  | nil => cases hmem
  | cons c rest ih =>
    rw [List.nodup_cons] at hnd
    rcases List.mem_cons.mp hmem with rfl | hd'
    · have hrest : ∀ x ∈ rest, dead x = false := fun x hx =>
        hlive x (List.mem_cons_of_mem _ hx) (fun he => hnd.1 (he ▸ hx))
      show (let r := send dead t d msg
            let r2 := broadcast dead r.1 rest msg
            (r2.1, r.2 ++ r2.2)) = _
      simp only [send, hdead, if_pos]
      rw [broadcast_all_live _ _ hrest,
        List.filter_cons_of_neg (by simp), filter_ne_of_not_mem hnd.1]
      rfl
    · have hcd : c ≠ d := fun he => hnd.1 (he ▸ hd')
      have hc : dead c = false :=
        hlive c (List.mem_cons_self _ _) hcd
      show (let r := send dead t c msg
            let r2 := broadcast dead r.1 rest msg
            (r2.1, r.2 ++ r2.2)) = _
      simp only [send, hc, Bool.false_eq_true, if_neg, if_false]
      rw [ih t hd' hnd.2
        (fun x hx hxd => hlive x (List.mem_cons_of_mem _ hx) hxd),
        List.filter_cons_of_pos (by simpa using hcd)]
      rfl

/-! ### Fallible-store lemmas -/

theorem deleteLoopF_fail {f : Flags} (hf : f.deleteFail = true) (cid : String)
    (t : Table) (L : List String) : deleteLoopF f cid t L = t := by
  cases L with
  | nil => rfl
  | cons sk L => simp [deleteLoopF, delete_itemF, hf]

theorem deleteLoopF_ok {f : Flags} (hf : f.deleteFail = false) (cid : String)
    (L : List String) (t : Table) :
    deleteLoopF f cid t L =
      L.foldl (fun acc sk => delete_item acc cid sk) t := by
  induction L generalizing t with
  | nil => rfl
  | cons sk L ih => simp [deleteLoopF, delete_itemF, hf, ih]

/-! ### The claims -/

/-- C1, counterexample: start from a connected handle, destroy the session,
and the claim fails at this concrete input — `get_record_by_connection`
does not report the empty-string username (its record has no `username`
field), and the dispatch in `handle` fails with a KeyError instead of
treating the connection as anonymous. -/
theorem C1_counterexample :
    recGet (get_record_by_connection
        (delete_connection (create_connection [] "C1") "C1") "C1")
        "username" ≠ some "" ∧
    (handle noDead (delete_connection (create_connection [] "C1") "C1")
        "C1" "hello").err ≠ none := by
  exact ⟨by decide, by decide⟩

/-- C1, amended: after `delete_connection` (destroySession) the record
returned by `get_record_by_connection` (getSession) has no `username` field
at all — `recGet` yields `none`, not `some ""` — and the top-level dispatch
`handle` raises a KeyError rather than treating the connection as anonymous;
the empty-string pre-login username exists only because `create_connection`
writes the explicit `"username_"` stub row, after which the record's
username is `some ""`. -/
theorem C1_amended (dead : String → Bool) (t : Table) (cid msg : String) :
    recGet (get_record_by_connection (delete_connection t cid) cid)
        "username" = none ∧
    (handle dead (delete_connection t cid) cid msg).err = some HErr.keyError ∧
    recGet (get_record_by_connection
        (create_connection (delete_connection t cid) cid) cid)
        "username" = some "" := by
  have hrec : get_record_by_connection (delete_connection t cid) cid = [] := by
    unfold get_record_by_connection
    rw [query_pk_delete_connection]
    rfl
  refine ⟨by rw [hrec]; rfl, ?_, ?_⟩
  · simp only [handle, hrec]
    rfl
  · have hnot : (cid, "username_") ∉ delete_connection t cid := by
      rw [mem_delete_connection]
      exact fun h => h.2 rfl
    unfold create_connection get_record_by_connection
    rw [query_pk_put_item hnot, query_pk_delete_connection]
    decide

/-- C2: a logged-in connection sending an unknown slash command does not get
the reply "Unknown command: {name}"; the source executes
`self._sender(connection_id, ...)`, calling the non-callable `Sender`
object, so a TypeError escapes, nothing is delivered to anyone, and no state
changes. -/
theorem C2_unknown_command_crashes :
    handle noDead [("C1", "username_alice")] "C1" "/color red" =
      ⟨[("C1", "username_alice")], [], some HErr.typeError⟩ := by
  decide

/-- C3: a logged-in connection sending `/join` with no room-name argument
does not get an error reply; `Handler._join` evaluates `args[0]` on an empty
argument list, so an IndexError escapes: the handler does read past the end
of the argument list, delivering nothing and changing nothing. -/
theorem C3_join_no_arg_crashes :
    handle noDead [("C1", "username_alice")] "C1" "/join" =
      ⟨[("C1", "username_alice")], [], some HErr.indexError⟩ := by
  decide

/-- C4: for a logged-in connection whose session satisfies the one-room
invariant (with well-formed room rows), `/join A` leaves exactly the
membership row `room_A`, a subsequent `/join B` (with the freshly reloaded
record) leaves exactly `room_B`, and both the quit and the join command
preserve the at-most-one-membership invariant for every argument list. -/
theorem C4_one_room_invariant (t : Table) (cid A B u : String)
    (hu : recGet (get_record_by_connection t cid) "username" = some u)
    (h1 : oneRoomInv t cid) (hwf : roomWF t cid) :
    roomKeyed ((_join noDead t cid [A]
        (get_record_by_connection t cid)).table) cid = ["room_" ++ A] ∧
    roomKeyed ((_join noDead
        ((_join noDead t cid [A] (get_record_by_connection t cid)).table)
        cid [B]
        (get_record_by_connection
          ((_join noDead t cid [A] (get_record_by_connection t cid)).table)
          cid)).table) cid = ["room_" ++ B] ∧
    (∀ args, oneRoomInv ((_quit noDead t cid args
        (get_record_by_connection t cid)).table) cid) ∧
    (∀ args, oneRoomInv ((_join noDead t cid args
        (get_record_by_connection t cid)).table) cid) := by
  have hA := join_roomKeyed A [] hu h1 hwf
  have huA := join_username A [] hu h1 hwf
  have h1A : oneRoomInv
      ((_join noDead t cid [A] (get_record_by_connection t cid)).table)
      cid := by
    unfold oneRoomInv
    rw [hA]
    simp
  have hwfA : roomWF
      ((_join noDead t cid [A] (get_record_by_connection t cid)).table)
      cid := by
    intro sk hsk
    rw [hA, List.mem_singleton] at hsk
    subst hsk
    rw [split1_room]
  have hB := join_roomKeyed B [] huA h1A hwfA
  refine ⟨hA, hB, fun args => quit_oneRoomInv args h1, fun args => ?_⟩
  cases args with
  | nil => exact h1
  | cons A0 rest =>
    unfold oneRoomInv
    rw [join_roomKeyed A0 rest hu h1 hwf]
    simp

/-- C4 witness: the fresh logged-in connection `C1` joins "lobby" and ends
with exactly the membership row `room_lobby`. -/
theorem C4_witness :
    (recGet (get_record_by_connection [("C1", "username_alice")] "C1")
        "username" = some "alice" ∧
     oneRoomInv [("C1", "username_alice")] "C1" ∧
     roomWF [("C1", "username_alice")] "C1") ∧
    roomKeyed ((_join noDead [("C1", "username_alice")] "C1" ["lobby"]
        (get_record_by_connection [("C1", "username_alice")] "C1")).table)
      "C1" = ["room_" ++ "lobby"] :=
  ⟨⟨by decide, by unfold oneRoomInv roomKeyed; decide,
    by unfold roomWF roomKeyed; decide⟩,
   (C4_one_room_invariant [("C1", "username_alice")] "C1" "lobby" "den"
     "alice" (by decide) (by unfold oneRoomInv roomKeyed; decide)
     (by unfold roomWF roomKeyed; decide)).1⟩

/-- C5: broadcasting to a list of distinct handles of which exactly one is
dead delivers to every other handle in order (N-1 deliveries), removes all
of the dead handle's directory rows, and the self-heal does not stop the
remaining send attempts. -/
theorem C5_broadcast_self_heal (dead : String → Bool) (t : Table)
    (cids : List String) (d msg : String)
    (hmem : d ∈ cids) (hnd : cids.Nodup) (hdead : dead d = true)
    (hlive : ∀ c ∈ cids, c ≠ d → dead c = false) :
    broadcast dead t cids msg =
      (delete_connection t d,
       (cids.filter (fun c => ¬ c = d)).map (fun c => (c, msg))) ∧
    (broadcast dead t cids msg).2.length = cids.length - 1 ∧
    ∀ r ∈ (broadcast dead t cids msg).1, r.1 ≠ d := by
  have heq := broadcast_one_dead t msg hmem hnd hdead hlive
  refine ⟨heq, ?_, ?_⟩
  · rw [heq]
    show ((cids.filter (fun c => ¬ c = d)).map (fun c => (c, msg))).length = _
    rw [List.length_map]
    exact length_filter_ne hnd hmem
  · rw [heq]
    intro r hr
    exact (mem_delete_connection.mp hr).2

/-- C5 witness: three distinct handles, `C2` dead: two deliveries (to `C1`
and `C3`), and `C2`'s rows are purged. -/
theorem C5_witness :
    ("C2" ∈ ["C1", "C2", "C3"] ∧ (["C1", "C2", "C3"] : List String).Nodup ∧
     (fun c => c == "C2") "C2" = true ∧
     (∀ c ∈ ["C1", "C2", "C3"], c ≠ "C2" →
       (fun c => c == "C2") c = false)) ∧
    broadcast (fun c => c == "C2") [("C2", "username_bob")]
        ["C1", "C2", "C3"] "hi" =
      (delete_connection [("C2", "username_bob")] "C2",
       (["C1", "C2", "C3"].filter (fun c => ¬ c = "C2")).map
         (fun c => (c, "hi"))) :=
  ⟨⟨by decide, by decide, by decide, by decide⟩,
   (C5_broadcast_self_heal (fun c => c == "C2") [("C2", "username_bob")]
     ["C1", "C2", "C3"] "C2" "hi" (by decide) (by decide) (by decide)
     (by decide)).1⟩

/-- C6: for a logged-in connection, `/join room` performs in order the quit
behavior, the pre-join member query of the target room, `set_room`, the
reply `Joined chat room "{room}"` to the caller, and the broadcast of
"{username} joined room." exactly to the pre-join members — a list that,
under the one-room invariant, never contains the joiner. -/
theorem C6_join_sequence (t : Table) (cid room u : String)
    (rest : List String)
    (hu : recGet (get_record_by_connection t cid) "username" = some u)
    (h1 : oneRoomInv t cid) (hwf : roomWF t cid) :
    _join noDead t cid (room :: rest) (get_record_by_connection t cid) =
      ⟨set_room
         (_quit noDead t cid [] (get_record_by_connection t cid)).table cid
         room,
       (_quit noDead t cid [] (get_record_by_connection t cid)).out ++
         (cid, "Joined chat room \"" ++ room ++ "\"") ::
           (get_connection_ids_by_room
             (_quit noDead t cid [] (get_record_by_connection t cid)).table
             room).map (fun c => (c, u ++ " joined room.")),
       none⟩ ∧
    cid ∉ get_connection_ids_by_room
      (_quit noDead t cid [] (get_record_by_connection t cid)).table room :=
  ⟨join_noDead_eq t cid room rest hu, quit_excludes [] h1 hwf⟩

/-- C6 witness: `C1` joins "lobby"; the pre-join member list of "lobby" does
not contain `C1`. -/
theorem C6_witness :
    (recGet (get_record_by_connection [("C1", "username_alice")] "C1")
        "username" = some "alice" ∧
     oneRoomInv [("C1", "username_alice")] "C1" ∧
     roomWF [("C1", "username_alice")] "C1") ∧
    "C1" ∉ get_connection_ids_by_room
      (_quit noDead [("C1", "username_alice")] "C1" []
        (get_record_by_connection [("C1", "username_alice")] "C1")).table
      "lobby" :=
  ⟨⟨by decide, by unfold oneRoomInv roomKeyed; decide,
    by unfold roomWF roomKeyed; decide⟩,
   (C6_join_sequence [("C1", "username_alice")] "C1" "lobby" "alice" []
     (by decide) (by unfold oneRoomInv roomKeyed; decide)
     (by unfold roomWF roomKeyed; decide)).2⟩

/-- C7: for a logged-in connection, `/quit` with no room in the session is a
pure no-op; with a room it deletes that membership row, replies
`Left chat room "{room}"` to the caller, and broadcasts
"{username} left room." to the members returned by a query made after the
removal — a list that never contains the quitting connection. -/
theorem C7_quit_behavior (t : Table) (cid u : String) (args : List String)
    (hu : recGet (get_record_by_connection t cid) "username" = some u) :
    (recGet (get_record_by_connection t cid) "room" = none →
      _quit noDead t cid args (get_record_by_connection t cid) =
        ⟨t, [], none⟩) ∧
    ∀ X, recGet (get_record_by_connection t cid) "room" = some X →
      _quit noDead t cid args (get_record_by_connection t cid) =
        ⟨remove_room t cid X,
         (cid, "Left chat room \"" ++ X ++ "\"") ::
           (get_connection_ids_by_room (remove_room t cid X) X).map
             (fun c => (c, u ++ " left room.")),
         none⟩ ∧
      cid ∉ get_connection_ids_by_room (remove_room t cid X) X :=
  ⟨fun h => quit_noDead_none t cid args h,
   fun X hX => ⟨quit_noDead_some t cid args hX hu,
     remove_room_excludes t cid X⟩⟩

/-- C7 witness: `C1` (in "lobby") quits; the membership row is removed, the
confirmation goes to `C1`, and the post-removal member query excludes `C1`. -/
theorem C7_witness :
    (recGet (get_record_by_connection
        [("C1", "username_alice"), ("C1", "room_lobby")] "C1")
        "username" = some "alice" ∧
     recGet (get_record_by_connection
        [("C1", "username_alice"), ("C1", "room_lobby")] "C1")
        "room" = some "lobby") ∧
    _quit noDead [("C1", "username_alice"), ("C1", "room_lobby")] "C1" []
        (get_record_by_connection
          [("C1", "username_alice"), ("C1", "room_lobby")] "C1") =
      ⟨remove_room [("C1", "username_alice"), ("C1", "room_lobby")] "C1"
         "lobby",
       ("C1", "Left chat room \"" ++ "lobby" ++ "\"") ::
         (get_connection_ids_by_room
           (remove_room [("C1", "username_alice"), ("C1", "room_lobby")]
             "C1" "lobby") "lobby").map
           (fun c => (c, "alice" ++ " left room.")),
       none⟩ :=
  ⟨⟨by decide, by decide⟩,
   ((C7_quit_behavior [("C1", "username_alice"), ("C1", "room_lobby")] "C1"
     "alice" [] (by decide)).2 "lobby" (by decide)).1⟩

/-- C8: for a logged-in connection, `/nick` with no arguments leaves the
table untouched and delivers exactly one message, to the caller, echoing the
unchanged current username. -/
theorem C8_nick_no_args (t : Table) (cid u : String)
    (hu : recGet (get_record_by_connection t cid) "username" = some u) :
    _nick noDead t cid [] (get_record_by_connection t cid) =
      ⟨t, [(cid, "Current nickname: " ++ u)], none⟩ := by
  simp only [_nick, hu]
  rfl

/-- C8 witness: `/nick` with no arguments for `C1` echoes "alice" and leaves
the store unchanged. -/
theorem C8_witness :
    recGet (get_record_by_connection [("C1", "username_alice")] "C1")
        "username" = some "alice" ∧
    _nick noDead [("C1", "username_alice")] "C1" []
        (get_record_by_connection [("C1", "username_alice")] "C1") =
      ⟨[("C1", "username_alice")],
       [("C1", "Current nickname: " ++ "alice")], none⟩ :=
  ⟨by decide,
   C8_nick_no_args [("C1", "username_alice")] "C1" "alice" (by decide)⟩

/-- C9: under fault injection on the store primitives,
`Storage.delete_connection` always returns normally — a query or delete
failure is swallowed, leaving the table as reached — while every other
storage operation surfaces the primitive failure to its caller (`okB` is
`false` exactly when a primitive it uses is failing). -/
theorem C9_destroy_swallows (f : Flags) (t : Table)
    (cid old_name username room : String) :
    delete_connectionF f t cid =
      (if f.queryFail || f.deleteFail then t else delete_connection t cid) ∧
    okB (create_connectionF f t cid) = !f.putFail ∧
    okB (set_usernameF f t cid old_name username) =
      !(f.deleteFail || f.putFail) ∧
    okB (set_roomF f t cid room) = !f.putFail ∧
    okB (remove_roomF f t cid room) = !f.deleteFail ∧
    okB (get_connection_ids_by_roomF f t room) = !f.queryFail ∧
    okB (get_record_by_connectionF f t cid) = !f.queryFail ∧
    okB (list_roomsF f t) = !f.scanFail := by
  rcases f with ⟨p, dl, q, s⟩
  refine ⟨?_, ?_, ?_, ?_, ?_, ?_, ?_, ?_⟩
  · cases q with
    | true => simp [delete_connectionF, query_pkF]
    | false =>
      cases dl with
      | true =>
        simp [delete_connectionF, query_pkF,
          deleteLoopF_fail (f := ⟨p, true, false, s⟩) rfl]
      | false =>
        simp [delete_connectionF, query_pkF,
          deleteLoopF_ok (f := ⟨p, false, false, s⟩) rfl, delete_connection]
  · cases p <;> simp [create_connectionF, put_itemF, okB]
  · cases p <;> cases dl <;> rfl
  · cases p <;> simp [set_roomF, put_itemF, okB]
  · cases dl <;> simp [remove_roomF, delete_itemF, okB]
  · cases q <;> simp [get_connection_ids_by_roomF, query_roomF, okB]
  · cases q <;> simp [get_record_by_connectionF, query_pkF, okB, Except.bind]
  · cases s <;> simp [list_roomsF, scanF, okB, Except.bind]

/-- C10: `/nick newName` for a session whose (possibly stale) record has a
room first writes the username change and the confirmation, then removes the
caller's own handle from the queried member list before broadcasting; when
the handle is absent from that list (e.g. the membership row was concurrently
deleted), `list.remove` raises ValueError and the rename announcement is not
broadcast even though the username change is already in the store; when the
handle is present, the broadcast goes to the member list minus the caller. -/
theorem C10_nick_rename_remove (t : Table) (cid n u X : String)
    (rest : List String) (record : Record)
    (hu : recGet record "username" = some u)
    (hr : recGet record "room" = some X) (hne : ¬ X = "") :
    (cid ∉ get_connection_ids_by_room (set_username t cid u n) X →
      _nick noDead t cid (n :: rest) record =
        ⟨set_username t cid u n, [(cid, "Nickname is: " ++ n)],
         some HErr.valueError⟩) ∧
    (cid ∈ get_connection_ids_by_room (set_username t cid u n) X →
      _nick noDead t cid (n :: rest) record =
        ⟨set_username t cid u n,
         (cid, "Nickname is: " ++ n) ::
           ((get_connection_ids_by_room (set_username t cid u n) X).erase
             cid).map (fun c => (c, u ++ " is now known as " ++ n ++ ".")),
         none⟩) := by
  constructor
  · intro habs
    simp only [_nick, hu, hr, send_noDead, if_neg hne, listRemove,
      if_neg habs]
  · intro hpres
    simp only [_nick, hu, hr, send_noDead, if_neg hne, listRemove,
      if_pos hpres, broadcast_noDead]
    rfl

/-- C10 witness: a stale record says `C1` is "alice" in "lobby", but the
store has been emptied by a concurrent disconnect; `/nick al` writes the new
username row, confirms to the caller, then raises ValueError and never
broadcasts the announcement. -/
theorem C10_witness :
    (recGet [("username", "alice"), ("room", "lobby")] "username" =
        some "alice" ∧
     recGet [("username", "alice"), ("room", "lobby")] "room" =
        some "lobby" ∧
     ¬ "lobby" = "" ∧
     "C1" ∉ get_connection_ids_by_room
        (set_username [] "C1" "alice" "al") "lobby") ∧
    _nick noDead [] "C1" ["al"] [("username", "alice"), ("room", "lobby")] =
      ⟨set_username [] "C1" "alice" "al", [("C1", "Nickname is: " ++ "al")],
       some HErr.valueError⟩ :=
  ⟨⟨by decide, by decide, by decide, by decide⟩,
   (C10_nick_rename_remove [] "C1" "al" "alice" "lobby" []
     [("username", "alice"), ("room", "lobby")] (by decide) (by decide)
     (by decide)).1 (by decide)⟩

end LatinChat
